import Mathlib

/-!
Shallow embedding of the calendar-sync worker (src/index.js).

The core is the reconciler `syncEvents` (lines 188-267), its change
detector `hasEventChanged` (lines 269-275), the desired-representation
construction (lines 208-237), the three destination-writer calls
`createGoogleEvent` / `updateGoogleEvent` / `deleteGoogleEvent`
(lines 277-328, modelled by the error-reporting behaviour they exhibit
for a given HTTP response, since they never throw), and the HTTP
`fetch` handler (lines 8-36).

JavaScript values that may be `undefined` or `null` are embedded as
`Option`; JavaScript string truthiness (empty string is falsy) is made
explicit at each use site.  Mutations are recorded as a list, in the
order the worker issues the corresponding network calls; the effect of
applying them to the destination calendar is modelled separately by
`applyMutation` (create inserts a fresh item, update is the PATCH
endpoint the code calls, delete removes by identifier).
-/

/-- Attendee record as produced by parseICS (lines 107-112). -/
structure Attendee where
  email : String
  displayName : String
  responseStatus : String
deriving DecidableEq, Repr

/-- Organizer record as produced by parseICS (lines 115-119). -/
structure Organizer where
  email : String
  displayName : String
deriving DecidableEq, Repr

/-- Normalized source event, the shape returned by parseICS
(lines 121-133).  Per the data model every source item carries a
modification instant (last-modified falling back to dtstamp), so
`lastModified` is a plain string. -/
structure SourceEvent where
  uid : String
  summary : String
  description : String
  location : String
  start : String
  end_ : String
  isAllDay : Bool
  lastModified : String
  attendees : List Attendee
  organizer : Option Organizer
deriving DecidableEq, Repr

/-- Private extended properties of a destination item; each key may be
absent (lines 194 and 246 read them through optional chaining). -/
structure PrivateProps where
  outlookSyncUid : Option String
  outlookLastModified : Option String
deriving DecidableEq, Repr

/-- The extendedProperties object of a destination item; the private
bag itself may be absent. -/
structure ExtendedProperties where
  private_ : Option PrivateProps
deriving DecidableEq, Repr

/-- Start or end of a destination event: all-day events use a date-only
field, timed events an instant field (lines 230-237). -/
inductive EventTime where
  | date (d : String)
  | dateTime (dt : String)
deriving DecidableEq, Repr

/-- Destination calendar item as read back from the destination API.
Every field other than the identifier may be absent. -/
structure GoogleEvent where
  id : Nat
  summary : Option String
  description : Option String
  location : Option String
  attendees : Option (List Attendee)
  organizer : Option Organizer
  start : Option EventTime
  end_ : Option EventTime
  extendedProperties : Option ExtendedProperties
deriving DecidableEq, Repr

/-- Private extended properties of a request body; the worker always
writes both keys (lines 212-217). -/
structure BodyPrivateProps where
  outlookSyncUid : String
  outlookLastModified : String
deriving DecidableEq, Repr

/-- The extendedProperties object of a request body. -/
structure BodyExtendedProperties where
  private_ : BodyPrivateProps
deriving DecidableEq, Repr

/-- Request body built for one source event (googleEventBody,
lines 208-237).  `attendees` and `organizer` are `none` exactly when
the corresponding key is left off the JSON object. -/
structure GoogleEventBody where
  summary : String
  description : String
  location : String
  extendedProperties : BodyExtendedProperties
  attendees : Option (List Attendee)
  organizer : Option Organizer
  start : EventTime
  end_ : EventTime
deriving DecidableEq, Repr

/-- One destination mutation, recorded in the order the worker issues
the corresponding call. -/
inductive Mutation where
  | create (body : GoogleEventBody)
  | update (id : Nat) (body : GoogleEventBody)
  | delete (id : Nat)
deriving DecidableEq, Repr

/-- The stats accumulator of syncEvents (line 189). -/
structure Stats where
  created : Nat
  updated : Nat
  deleted : Nat
  unchanged : Nat
deriving DecidableEq, Repr

/-- HTTP response of one destination call, as far as the worker
inspects it (the ok flag and the status code). -/
structure CallResponse where
  ok : Bool
  status : Nat
deriving DecidableEq, Repr

/-- Error log entries emitted by the three writer wrappers. -/
inductive LogEntry where
  | createFailed
  | updateFailed
  | deleteFailed
deriving DecidableEq, Repr

/-- Wrapper createGoogleEvent (lines 277-294): it posts the body and,
when the response is not ok, only logs; it never throws, so its entire
observable behaviour is the possible error log entry. -/
def createGoogleEvent (r : CallResponse) : List LogEntry :=
  if !r.ok then [.createFailed] else []

/-- Wrapper updateGoogleEvent (lines 296-313): issues the update and
logs on a non-ok response; it never throws. -/
def updateGoogleEvent (r : CallResponse) : List LogEntry :=
  if !r.ok then [.updateFailed] else []

/-- HTTP method used by updateGoogleEvent (line 300). -/
def updateGoogleEventMethod : String := "PATCH"

/-- Wrapper deleteGoogleEvent (lines 315-328): logs on a non-ok
response unless the status is 404 (line 324); it never throws. -/
def deleteGoogleEvent (r : CallResponse) : List LogEntry :=
  if !r.ok && !(r.status == 404) then [.deleteFailed] else []

/-- Optional chain event.extendedProperties?.private?.outlookSyncUid
(line 194). -/
def privUid (g : GoogleEvent) : Option String :=
  (g.extendedProperties.bind (fun e => e.private_)).bind
    (fun p => p.outlookSyncUid)

/-- Optional chain reading outlookLastModified (line 246). -/
def privLastModified (g : GoogleEvent) : Option String :=
  (g.extendedProperties.bind (fun e => e.private_)).bind
    (fun p => p.outlookLastModified)

/-- The correlation key under which a destination item is indexed:
its stored outlookSyncUid when that is a truthy (non-empty) string,
following the truthiness test at line 195. -/
def ownedUid (g : GoogleEvent) : Option String :=
  match privUid g with
  | some uid => if uid = "" then none else some uid
  | none => none

/-- JavaScript Map.set: replace the value in place if the key is
present, otherwise append a new entry (insertion order preserved). -/
def mapSet (m : List (String × GoogleEvent)) (k : String)
    (v : GoogleEvent) : List (String × GoogleEvent) :=
  if m.any (fun p => p.1 == k) then
    m.map (fun p => if p.1 == k then (k, v) else p)
  else m ++ [(k, v)]

/-- JavaScript Map.get: the value stored under the key, if any. -/
def mapGet (m : List (String × GoogleEvent)) (k : String) :
    Option GoogleEvent :=
  (m.find? (fun p => p.1 == k)).map (fun p => p.2)

/-- One iteration of the indexing loop (lines 193-198): an event is
indexed under its stored outlookSyncUid when that uid is truthy. -/
def indexStep (m : List (String × GoogleEvent)) (event : GoogleEvent) :
    List (String × GoogleEvent) :=
  match privUid event with
  | some uid => if uid = "" then m else mapSet m uid event
  | none => m

/-- The googleEventsByUid map of syncEvents (lines 192-198). -/
def buildIndex (googleEvents : List GoogleEvent) :
    List (String × GoogleEvent) :=
  googleEvents.foldl indexStep []

/-- JavaScript split on the one-character separator T, first component:
the prefix of the string before its first T (the whole string when no T
occurs), as used at lines 232-233. -/
def splitT0 (s : String) : String :=
  ⟨s.data.takeWhile (fun c => c ≠ 'T')⟩

/-- The googleEventBody built for one source event (lines 208-237):
summary, description, location copied verbatim; the correlation payload
always stamped; attendees attached only when non-empty; organizer
attached only when present with a truthy email; start and end date-only
for all-day events, instants otherwise. -/
def desiredBody (outlookEvent : SourceEvent) : GoogleEventBody :=
  { summary := outlookEvent.summary
    description := outlookEvent.description
    location := outlookEvent.location
    extendedProperties :=
      { private_ :=
          { outlookSyncUid := outlookEvent.uid
            outlookLastModified := outlookEvent.lastModified } }
    attendees :=
      if outlookEvent.attendees.length > 0 then some outlookEvent.attendees
      else none
    organizer :=
      match outlookEvent.organizer with
      | some o => if o.email = "" then none else some o
      | none => none
    start :=
      if outlookEvent.isAllDay then .date (splitT0 outlookEvent.start)
      else .dateTime outlookEvent.start
    end_ :=
      if outlookEvent.isAllDay then .date (splitT0 outlookEvent.end_)
      else .dateTime outlookEvent.end_ }

/-- Change detector hasEventChanged (lines 269-275).  The stored fields
are optional strings while the body fields are strings, exactly as the
strict inequality compares them in the source. -/
def hasEventChanged (googleEvent : GoogleEvent)
    (newEventBody : GoogleEventBody) : Bool :=
  googleEvent.summary != some newEventBody.summary ||
  googleEvent.description != some newEventBody.description ||
  googleEvent.location != some newEventBody.location

/-- The update condition of line 247: the stored outlookLastModified
differs from the source lastModified, or the content comparison
triggers. -/
def needsUpdate (existingGoogleEvent : GoogleEvent)
    (outlookEvent : SourceEvent) (googleEventBody : GoogleEventBody) :
    Bool :=
  privLastModified existingGoogleEvent != some outlookEvent.lastModified ||
  hasEventChanged existingGoogleEvent googleEventBody

/-- Accumulated state of one syncEvents run: the stats object, the
mutations issued so far (in call order), the error log entries, and the
number of destination calls already made (used to look up responses). -/
structure RunState where
  stats : Stats
  muts : List Mutation
  logs : List LogEntry
  calls : Nat
deriving DecidableEq, Repr

/-- Body of the per-source-event loop of syncEvents (lines 204-255):
missing index entry issues a create; a stale entry issues an update
against the existing identifier; otherwise only the unchanged counter
moves. -/
def syncStep (responses : Nat → CallResponse)
    (googleEventsByUid : List (String × GoogleEvent)) (st : RunState)
    (outlookEvent : SourceEvent) : RunState :=
  let googleEventBody := desiredBody outlookEvent
  match mapGet googleEventsByUid outlookEvent.uid with
  | none =>
      { stats := { st.stats with created := st.stats.created + 1 }
        muts := st.muts ++ [.create googleEventBody]
        logs := st.logs ++ createGoogleEvent (responses st.calls)
        calls := st.calls + 1 }
  | some existingGoogleEvent =>
      if needsUpdate existingGoogleEvent outlookEvent googleEventBody then
        { stats := { st.stats with updated := st.stats.updated + 1 }
          muts := st.muts ++ [.update existingGoogleEvent.id googleEventBody]
          logs := st.logs ++ updateGoogleEvent (responses st.calls)
          calls := st.calls + 1 }
      else
        { st with stats := { st.stats with unchanged := st.stats.unchanged + 1 } }

/-- Body of the deletion pass of syncEvents (lines 257-264): an index
entry whose key was not seen among the source uids is deleted. -/
def deleteStep (responses : Nat → CallResponse) (seenUids : List String)
    (st : RunState) (p : String × GoogleEvent) : RunState :=
  if seenUids.contains p.1 then st
  else
    { stats := { st.stats with deleted := st.stats.deleted + 1 }
      muts := st.muts ++ [.delete p.2.id]
      logs := st.logs ++ deleteGoogleEvent (responses st.calls)
      calls := st.calls + 1 }

/-- The reconciler syncEvents (lines 188-267).  The source adds each
uid to seenUids during the main loop and only reads the set in the
deletion pass, so seenUids is exactly the list of source uids there. -/
def syncEvents (responses : Nat → CallResponse)
    (outlookEvents : List SourceEvent) (googleEvents : List GoogleEvent) :
    RunState :=
  let googleEventsByUid := buildIndex googleEvents
  let seenUids := outlookEvents.map (fun e => e.uid)
  let st := outlookEvents.foldl (syncStep responses googleEventsByUid)
    { stats := { created := 0, updated := 0, deleted := 0, unchanged := 0 }
      muts := [], logs := [], calls := 0 }
  googleEventsByUid.foldl (deleteStep responses seenUids) st

/-- Response oracle for a run in which every destination call
succeeds. -/
def allOk : Nat → CallResponse := fun _ => { ok := true, status := 200 }

/-- Model of a create at the destination: the stored item carries
exactly the fields of the posted body, under a server-assigned fresh
identifier. -/
def eventOfBody (id : Nat) (b : GoogleEventBody) : GoogleEvent :=
  { id := id
    summary := some b.summary
    description := some b.description
    location := some b.location
    attendees := b.attendees
    organizer := b.organizer
    start := some b.start
    end_ := some b.end_
    extendedProperties :=
      some { private_ := some { outlookSyncUid :=
                                  some b.extendedProperties.private_.outlookSyncUid
                                outlookLastModified :=
                                  some b.extendedProperties.private_.outlookLastModified } } }

/-- Model of the destination PATCH endpoint that updateGoogleEvent
calls (line 300, events.patch): fields present in the request body
replace the stored fields, fields absent from the body are left as
stored, and private extended properties are merged per key (the worker
always sends both keys). -/
def patchEvent (g : GoogleEvent) (b : GoogleEventBody) : GoogleEvent :=
  { id := g.id
    summary := some b.summary
    description := some b.description
    location := some b.location
    attendees := match b.attendees with
      | some a => some a
      | none => g.attendees
    organizer := match b.organizer with
      | some o => some o
      | none => g.organizer
    start := some b.start
    end_ := some b.end_
    extendedProperties :=
      some { private_ := some { outlookSyncUid :=
                                  some b.extendedProperties.private_.outlookSyncUid
                                outlookLastModified :=
                                  some b.extendedProperties.private_.outlookLastModified } } }

/-- Effect of one issued mutation on the destination snapshot, with a
counter supplying fresh identifiers for creates.  An update patches the
item with the targeted identifier; a delete removes it. -/
def applyMutation : List GoogleEvent × Nat → Mutation → List GoogleEvent × Nat
  | (dest, next), .create b => (dest ++ [eventOfBody next b], next + 1)
  | (dest, next), .update i b =>
      (dest.map (fun g => if g.id = i then patchEvent g b else g), next)
  | (dest, next), .delete i => (dest.filter (fun g => g.id ≠ i), next)

/-- Destination snapshot after a list of mutations has been applied in
order. -/
def applyMutations (dest : List GoogleEvent) (next : Nat)
    (muts : List Mutation) : List GoogleEvent :=
  (muts.foldl applyMutation (dest, next)).1

/-- Incoming request, as far as the fetch handler inspects it: the
path, the X-Sync-Token header and the token query parameter. -/
structure Req where
  path : String
  headerToken : Option String
  queryToken : Option String
deriving DecidableEq, Repr

/-- Outgoing response: status code and body text. -/
structure Resp where
  status : Nat
  body : String
deriving DecidableEq, Repr

/-- JavaScript truthiness of a nullable string: null, undefined and the
empty string are falsy. -/
def jsTruthy : Option String → Bool
  | none => false
  | some s => s ≠ ""

/-- Token extraction of line 14: the header value if truthy, otherwise
the query parameter. -/
def effectiveToken (headerToken queryToken : Option String) : Option String :=
  if jsTruthy headerToken then headerToken else queryToken

/-- The fetch handler (lines 8-36).  On the sync path with a falsy
configured secret or a mismatched supplied token it answers 401
Unauthorized; with a matching token it answers with the outcome of the
sync run (passed in as runSync, covering both the 200 and the 500
branch); any other path answers 404 Not found. -/
def fetchHandler (syncToken : Option String) (runSync : Resp) (req : Req) :
    Resp :=
  if req.path = "/sync" then
    let token := effectiveToken req.headerToken req.queryToken
    if ¬ jsTruthy syncToken ∨ token ≠ syncToken then
      { status := 401, body := "Unauthorized" }
    else runSync
  else { status := 404, body := "Not found" }

/-! ### Concrete values used by witnesses and counterexamples -/

/-- A sample attendee. -/
def exAttendee : Attendee :=
  { email := "a@example.com", displayName := "A", responseStatus := "accepted" }

/-- A sample source event with uid A and no attendees. -/
def exEvent : SourceEvent :=
  { uid := "A", summary := "Standup", description := "", location := ""
    start := "2024-06-01T00:00:00.000Z", end_ := "2024-06-01T01:00:00.000Z"
    isAllDay := false, lastModified := "2024-01-01T00:00:00Z"
    attendees := [], organizer := none }

/-- The sample source event as an all-day event. -/
def exAllDay : SourceEvent :=
  { exEvent with isAllDay := true }

/-- A destination item owned by uid A whose stored state is stale (an
older stored timestamp) and which carries an attendee. -/
def exOwnedItem : GoogleEvent :=
  { id := 1, summary := some "Standup", description := some ""
    location := some "", attendees := some [exAttendee], organizer := none
    start := none, end_ := none
    extendedProperties :=
      some { private_ := some { outlookSyncUid := some "A"
                                outlookLastModified :=
                                  some "2023-12-31T00:00:00Z" } } }

/-- A destination item without the correlation payload. -/
def exForeign : GoogleEvent :=
  { id := 7, summary := some "Dentist", description := none
    location := none, attendees := none, organizer := none
    start := none, end_ := none, extendedProperties := none }

/-- First of two destination items sharing the owned uid B. -/
def exDup1 : GoogleEvent :=
  { id := 1, summary := some "B1", description := none, location := none
    attendees := none, organizer := none, start := none, end_ := none
    extendedProperties :=
      some { private_ := some { outlookSyncUid := some "B"
                                outlookLastModified := some "T" } } }

/-- Second of two destination items sharing the owned uid B. -/
def exDup2 : GoogleEvent :=
  { id := 2, summary := some "B2", description := none, location := none
    attendees := none, organizer := none, start := none, end_ := none
    extendedProperties :=
      some { private_ := some { outlookSyncUid := some "B"
                                outlookLastModified := some "T" } } }

/-! ### Map and index lemmas -/

/-- The item a JavaScript Map holds under a key after the indexing
loop: the last event of the list whose stored uid is that (truthy)
key. -/
def lastOwned (u : String) : List GoogleEvent → Option GoogleEvent
  | [] => none
  | g :: t =>
    match lastOwned u t with
    | some h => some h
    | none => if ownedUid g = some u then some g else none

/-- The list of source uids that the seenUids set holds when the
deletion pass runs. -/
def sourceUids (es : List SourceEvent) : List String :=
  es.map (fun e => e.uid)

/-- The mutations one source event contributes to the main loop. -/
def stepMut (index : List (String × GoogleEvent)) (e : SourceEvent) :
    List Mutation :=
  match mapGet index e.uid with
  | none => [.create (desiredBody e)]
  | some g =>
      if needsUpdate g e (desiredBody e) then [.update g.id (desiredBody e)]
      else []

/-- Whether a source event falls in the create branch. -/
def createdPred (index : List (String × GoogleEvent)) (e : SourceEvent) :
    Bool :=
  (mapGet index e.uid).isNone

/-- Whether a source event falls in the update branch. -/
def updatedPred (index : List (String × GoogleEvent)) (e : SourceEvent) :
    Bool :=
  match mapGet index e.uid with
  | some g => needsUpdate g e (desiredBody e)
  | none => false

/-- Whether a source event falls in the unchanged branch. -/
def unchangedPred (index : List (String × GoogleEvent)) (e : SourceEvent) :
    Bool :=
  match mapGet index e.uid with
  | some g => !needsUpdate g e (desiredBody e)
  | none => false

/-- Whether an index entry falls in the deletion branch. -/
def deletedPred (seenUids : List String) (p : String × GoogleEvent) :
    Bool :=
  !(seenUids.contains p.1)

/-- Cumulative effect on one stored item of all update mutations in a
list that target its identifier. -/
def patchAll (muts : List Mutation) (g : GoogleEvent) : GoogleEvent :=
  muts.foldl (fun h m => match m with
    | .update i b => if h.id = i then patchEvent h b else h
    | _ => h) g

/-- The items a mutation list creates, with sequentially assigned fresh
identifiers starting at the given counter. -/
def createdOf : List Mutation → Nat → List GoogleEvent
  | [], _ => []
  | .create b :: rest, n => eventOfBody n b :: createdOf rest (n + 1)
  | .update _ _ :: rest, n => createdOf rest n
  | .delete _ :: rest, n => createdOf rest n

/-- Number of create mutations in a list. -/
def numCreates (muts : List Mutation) : Nat :=
  muts.countP (fun m => match m with | .create _ => true | _ => false)

/-- Whether a mutation is a create or an update. -/
def isCreateOrUpdate : Mutation → Bool
  | .create _ => true
  | .update _ _ => true
  | .delete _ => false

/-- Identifiers targeted by the delete mutations of a list. -/
def delIdsOf (muts : List Mutation) : List Nat :=
  muts.filterMap (fun m => match m with | .delete i => some i | _ => none)

/-- The uid a request body would store, when truthy. -/
def bodyOwnedUid (b : GoogleEventBody) : Option String :=
  if b.extendedProperties.private_.outlookSyncUid = "" then none
  else some b.extendedProperties.private_.outlookSyncUid

/-- Closed form of the destination snapshot after applying the
mutations of one run: indexed items are patched in place, fresh items
are appended, and items deleted by the deletion pass are removed. -/
def run1Dest (es : List SourceEvent) (dest : List GoogleEvent)
    (next : Nat) : List GoogleEvent :=
  (dest.map (patchAll (es.flatMap (stepMut (buildIndex dest)))) ++
    createdOf (es.flatMap (stepMut (buildIndex dest))) next).filter
    (fun g => !((((buildIndex dest).filter
      (deletedPred (sourceUids es))).map (fun p => p.2.id)).contains g.id))

theorem ownedUid_ne_empty {g : GoogleEvent} {u : String}
    (h : ownedUid g = some u) : u ≠ "" := by
  unfold ownedUid at h
  rcases hp : privUid g with _ | v <;> rw [hp] at h
  · simp at h
  · by_cases hv : v = ""
    · simp [hv] at h
    · simp only [hv, if_false] at h
      cases Option.some.inj h
      exact hv

theorem indexStep_eq (m : List (String × GoogleEvent)) (g : GoogleEvent) :
    indexStep m g = match ownedUid g with
      | some u => mapSet m u g
      | none => m := by
  unfold indexStep ownedUid
  rcases hp : privUid g with _ | v
  · rfl
  · by_cases hv : v = "" <;> simp [hv]

theorem find?_replace_self (m : List (String × GoogleEvent))
    (k : String) (v : GoogleEvent) (h : m.any (fun p => p.1 == k) = true) :
    (m.map (fun p => if p.1 == k then (k, v) else p)).find?
      (fun p => p.1 == k) = some (k, v) := by
  induction m with
  | nil => simp at h
  | cons p t ih =>
    rw [List.map_cons]
    by_cases hp : p.1 = k
    · rw [if_pos (by simpa using hp)]
      exact List.find?_cons_of_pos _ (by simp)
    · rw [if_neg (by simpa using hp)]
      rw [List.find?_cons_of_neg _ (by simpa using hp)]
      apply ih
      simp only [List.any_cons, Bool.or_eq_true, beq_iff_eq] at h
      rcases h with h1 | h1
      · exact absurd h1 hp
      · simpa using h1

theorem find?_replace_ne (m : List (String × GoogleEvent)) {k u : String}
    (v : GoogleEvent) (huk : u ≠ k) :
    (m.map (fun p => if p.1 == k then (k, v) else p)).find?
      (fun p => p.1 == u) = m.find? (fun p => p.1 == u) := by
  induction m with
  | nil => rfl
  | cons p t ih =>
    rw [List.map_cons]
    by_cases hp : p.1 = k
    · rw [if_pos (by simpa using hp)]
      rw [List.find?_cons_of_neg _ (by simp [Ne.symm huk])]
      rw [List.find?_cons_of_neg _ (by simp [hp, Ne.symm huk])]
      exact ih
    · rw [if_neg (by simpa using hp)]
      by_cases hu : p.1 = u
      · rw [List.find?_cons_of_pos _ (by simpa using hu),
          List.find?_cons_of_pos _ (by simpa using hu)]
      · rw [List.find?_cons_of_neg _ (by simpa using hu),
          List.find?_cons_of_neg _ (by simpa using hu)]
        exact ih

theorem mapGet_mapSet_self (m : List (String × GoogleEvent)) (k : String)
    (v : GoogleEvent) : mapGet (mapSet m k v) k = some v := by
  unfold mapGet mapSet
  split
  · rename_i h
    rw [find?_replace_self m k v h]
    rfl
  · rename_i h
    have hm : m.find? (fun p => p.1 == k) = none := by
      rw [List.find?_eq_none]
      intro x hx hpx
      exact h (List.any_eq_true.mpr ⟨x, hx, hpx⟩)
    rw [List.find?_append, hm]
    simp [List.find?]

theorem mapGet_mapSet_ne (m : List (String × GoogleEvent)) {k u : String}
    (v : GoogleEvent) (huk : u ≠ k) :
    mapGet (mapSet m k v) u = mapGet m u := by
  unfold mapGet mapSet
  split
  · rw [find?_replace_ne m v huk]
  · rw [List.find?_append]
    have : ([(k, v)].find? (fun p => p.1 == u)) = none := by
      rw [List.find?_eq_none]
      intro x hx hpx
      simp at hx
      subst hx
      have hku : k = u := by simpa using hpx
      exact huk hku.symm
    rw [this, Option.or_none]

theorem mapGet_foldl_indexStep (l : List GoogleEvent) :
    ∀ (m : List (String × GoogleEvent)) (u : String),
      mapGet (l.foldl indexStep m) u =
        match lastOwned u l with
        | some g => some g
        | none => mapGet m u := by
  induction l with
  | nil => intro m u; simp [lastOwned]
  | cons g t ih =>
    intro m u
    rw [List.foldl_cons, ih, indexStep_eq]
    rcases hl : lastOwned u t with _ | h
    · rcases ho : ownedUid g with _ | w
      · simp [lastOwned, hl, ho]
      · by_cases hw : w = u
        · subst hw
          simp [lastOwned, hl, ho, mapGet_mapSet_self]
        · simp [lastOwned, hl, ho, hw, mapGet_mapSet_ne _ _ (Ne.symm hw)]
    · rcases ho : ownedUid g with _ | w
      · simp [lastOwned, hl, ho]
      · by_cases hw : w = u
        · subst hw; simp [lastOwned, hl, ho]
        · simp [lastOwned, hl, ho, mapGet_mapSet_ne _ _ (Ne.symm hw)]

theorem mapGet_buildIndex (l : List GoogleEvent) (u : String) :
    mapGet (buildIndex l) u = lastOwned u l := by
  unfold buildIndex
  rw [mapGet_foldl_indexStep]
  rcases h : lastOwned u l with _ | g <;> simp [mapGet, List.find?]

theorem lastOwned_mem {u : String} {l : List GoogleEvent} {g : GoogleEvent}
    (h : lastOwned u l = some g) : g ∈ l ∧ ownedUid g = some u := by
  induction l with
  | nil => simp [lastOwned] at h
  | cons a t ih =>
    unfold lastOwned at h
    rcases ht : lastOwned u t with _ | b <;> rw [ht] at h
    · by_cases ha : ownedUid a = some u
      · rw [if_pos ha] at h
        cases Option.some.inj h
        exact ⟨List.mem_cons_self _ _, ha⟩
      · rw [if_neg ha] at h
        exact absurd h (by simp)
    · cases Option.some.inj h
      rcases ih ht with ⟨h1, h2⟩
      exact ⟨List.mem_cons_of_mem _ h1, h2⟩

theorem lastOwned_isSome {u : String} {l : List GoogleEvent}
    {g : GoogleEvent} (hg : g ∈ l) (ho : ownedUid g = some u) :
    ∃ h, lastOwned u l = some h := by
  induction l with
  | nil => simp at hg
  | cons a t ih =>
    rcases List.mem_cons.mp hg with heq | hmem
    · unfold lastOwned
      rcases ht : lastOwned u t with _ | b
      · subst heq
        exact ⟨g, by rw [if_pos ho]⟩
      · exact ⟨b, rfl⟩
    · rcases ih hmem with ⟨h, hh⟩
      exact ⟨h, by unfold lastOwned; rw [hh]⟩

theorem mem_mapSet {p : String × GoogleEvent}
    {m : List (String × GoogleEvent)} {k : String} {v : GoogleEvent}
    (h : p ∈ mapSet m k v) : p ∈ m ∨ p = (k, v) := by
  unfold mapSet at h
  split at h
  · rcases List.mem_map.mp h with ⟨q, hq, hqe⟩
    by_cases hk : q.1 = k
    · right
      rw [if_pos (by simpa using hk)] at hqe
      exact hqe.symm
    · left
      rw [if_neg (by simpa using hk)] at hqe
      exact hqe ▸ hq
  · rcases List.mem_append.mp h with h1 | h1
    · exact Or.inl h1
    · right
      simpa using h1

theorem mem_foldl_indexStep {p : String × GoogleEvent}
    (l : List GoogleEvent) :
    ∀ m, p ∈ l.foldl indexStep m →
      p ∈ m ∨ (p.2 ∈ l ∧ ownedUid p.2 = some p.1) := by
  induction l with
  | nil => intro m h; exact Or.inl h
  | cons g t ih =>
    intro m h
    rw [List.foldl_cons] at h
    rcases ih _ h with h1 | h1
    · rw [indexStep_eq] at h1
      rcases ho : ownedUid g with _ | w <;> rw [ho] at h1
      · exact Or.inl h1
      · rcases mem_mapSet h1 with h2 | h2
        · exact Or.inl h2
        · subst h2
          exact Or.inr ⟨List.mem_cons_self _ _, ho⟩
    · exact Or.inr ⟨List.mem_cons_of_mem _ h1.1, h1.2⟩

theorem mem_buildIndex {u : String} {g : GoogleEvent}
    {l : List GoogleEvent} (h : (u, g) ∈ buildIndex l) :
    g ∈ l ∧ ownedUid g = some u := by
  rcases mem_foldl_indexStep l [] h with h1 | h1
  · simp at h1
  · exact h1

theorem fst_mapSet (m : List (String × GoogleEvent)) (k : String)
    (v : GoogleEvent) :
    (mapSet m k v).map Prod.fst =
      if m.any (fun p => p.1 == k) then m.map Prod.fst
      else m.map Prod.fst ++ [k] := by
  unfold mapSet
  split <;> rename_i h
  · rw [List.map_map]
    apply List.map_congr_left
    intro p _
    by_cases hp : p.1 = k
    · simp [hp]
    · simp [hp]
  · simp

theorem nodup_fst_foldl_indexStep (l : List GoogleEvent) :
    ∀ m, (m.map Prod.fst).Nodup →
      ((l.foldl indexStep m).map Prod.fst).Nodup := by
  induction l with
  | nil => intro m h; exact h
  | cons g t ih =>
    intro m h
    rw [List.foldl_cons]
    apply ih
    rw [indexStep_eq]
    rcases ho : ownedUid g with _ | w
    · exact h
    · rw [fst_mapSet]
      split <;> rename_i hany
      · exact h
      · have hw : w ∉ m.map Prod.fst := by
          intro hmem
          rcases List.mem_map.mp hmem with ⟨q, hq, hqe⟩
          have : m.any (fun p => p.1 == w) = true :=
            List.any_eq_true.mpr ⟨q, hq, by simp [hqe]⟩
          exact hany this
        simp [List.nodup_append, h, hw]

theorem nodup_fst_buildIndex (l : List GoogleEvent) :
    ((buildIndex l).map Prod.fst).Nodup :=
  nodup_fst_foldl_indexStep l [] (by simp)

theorem entry_unique {m : List (String × GoogleEvent)} {k : String}
    {a b : GoogleEvent} (hm : (m.map Prod.fst).Nodup)
    (ha : (k, a) ∈ m) (hb : (k, b) ∈ m) : a = b := by
  have := List.inj_on_of_nodup_map hm ha hb rfl
  exact congrArg Prod.snd this

theorem mapGet_mem {m : List (String × GoogleEvent)} {u : String}
    {g : GoogleEvent} (h : mapGet m u = some g) : (u, g) ∈ m := by
  unfold mapGet at h
  rcases hf : m.find? (fun p => p.1 == u) with _ | p
  · rw [hf] at h; exact absurd h (by simp)
  · rw [hf] at h
    have hp2 : p.2 = g := by simpa using h
    have hmem := List.mem_of_find?_eq_some hf
    have hp1 : p.1 = u := by simpa using List.find?_some hf
    have : p = (u, g) := by
      rcases p with ⟨p1, p2⟩
      simp only at hp1 hp2
      rw [hp1, hp2]
    exact this ▸ hmem

theorem owned_inj {l : List GoogleEvent}
    (hn : (l.filterMap ownedUid).Nodup) {h1 h2 : GoogleEvent} {u : String}
    (m1 : h1 ∈ l) (m2 : h2 ∈ l) (o1 : ownedUid h1 = some u)
    (o2 : ownedUid h2 = some u) : h1 = h2 := by
  induction l with
  | nil => simp at m1
  | cons a t ih =>
    rcases ha : ownedUid a with _ | w
    · have hm1 : h1 ∈ t := by
        rcases List.mem_cons.mp m1 with rfl | h
        · rw [ha] at o1; exact absurd o1 (by simp)
        · exact h
      have hm2 : h2 ∈ t := by
        rcases List.mem_cons.mp m2 with rfl | h
        · rw [ha] at o2; exact absurd o2 (by simp)
        · exact h
      have hn2 : (t.filterMap ownedUid).Nodup := by
        rw [List.filterMap_cons, ha] at hn
        exact hn
      exact ih hn2 hm1 hm2
    · rw [List.filterMap_cons, ha] at hn
      have hw : w ∉ t.filterMap ownedUid := (List.nodup_cons.mp hn).1
      have hn2 := (List.nodup_cons.mp hn).2
      rcases List.mem_cons.mp m1 with rfl | hm1
      · rcases List.mem_cons.mp m2 with rfl | hm2
        · rfl
        · rw [ha] at o1
          cases Option.some.inj o1
          exact absurd (List.mem_filterMap.mpr ⟨h2, hm2, o2⟩) hw
      · rcases List.mem_cons.mp m2 with rfl | hm2
        · rw [ha] at o2
          cases Option.some.inj o2
          exact absurd (List.mem_filterMap.mpr ⟨h1, hm1, o1⟩) hw
        · exact ih hn2 hm1 hm2

theorem mapGet_of_mem_nodup {m : List (String × GoogleEvent)}
    {u : String} {g : GoogleEvent} (hn : (m.map Prod.fst).Nodup)
    (h : (u, g) ∈ m) : mapGet m u = some g := by
  rcases hf : mapGet m u with _ | g2
  · unfold mapGet at hf
    rcases hfind : m.find? (fun p => p.1 == u) with _ | p
    · rw [List.find?_eq_none] at hfind
      exact absurd (hfind (u, g) h) (by simp)
    · rw [hfind] at hf
      exact absurd hf (by simp)
  · have := mapGet_mem hf
    rw [entry_unique hn h this]

/-! ### Closed form of the reconciliation loops -/

theorem syncLoop_stats (resp : Nat → CallResponse)
    (index : List (String × GoogleEvent)) (es : List SourceEvent) :
    ∀ st : RunState, (es.foldl (syncStep resp index) st).stats =
      { created := st.stats.created + es.countP (createdPred index)
        updated := st.stats.updated + es.countP (updatedPred index)
        deleted := st.stats.deleted
        unchanged := st.stats.unchanged + es.countP (unchangedPred index) } := by
  induction es with
  | nil =>
    intro st
    rcases st with ⟨⟨c, u, d, n⟩, m, lg, cl⟩
    simp
  | cons e t ih =>
    intro st
    rw [List.foldl_cons, ih]
    unfold syncStep
    rcases h : mapGet index e.uid with _ | g
    · simp only [h, List.countP_cons, createdPred, updatedPred, unchangedPred,
        Stats.mk.injEq]
      simp [h]
      omega
    · by_cases hu : needsUpdate g e (desiredBody e)
      · simp only [h, hu, if_true, List.countP_cons, createdPred, updatedPred,
          unchangedPred, Stats.mk.injEq]
        simp [h, hu]
        omega
      · simp only [h, hu, if_false, List.countP_cons, createdPred, updatedPred,
          unchangedPred, Stats.mk.injEq]
        simp [h, hu]
        omega

theorem syncLoop_muts (resp : Nat → CallResponse)
    (index : List (String × GoogleEvent)) (es : List SourceEvent) :
    ∀ st : RunState, (es.foldl (syncStep resp index) st).muts =
      st.muts ++ es.flatMap (stepMut index) := by
  induction es with
  | nil => intro st; simp
  | cons e t ih =>
    intro st
    rw [List.foldl_cons, ih, List.flatMap_cons]
    unfold syncStep stepMut
    rcases h : mapGet index e.uid with _ | g
    · simp [h]
    · by_cases hu : needsUpdate g e (desiredBody e) <;> simp [h, hu]

theorem delLoop_stats (resp : Nat → CallResponse) (seen : List String)
    (m : List (String × GoogleEvent)) :
    ∀ st : RunState, (m.foldl (deleteStep resp seen) st).stats =
      { created := st.stats.created
        updated := st.stats.updated
        deleted := st.stats.deleted + m.countP (deletedPred seen)
        unchanged := st.stats.unchanged } := by
  induction m with
  | nil =>
    intro st
    rcases st with ⟨⟨c, u, d, n⟩, mu, lg, cl⟩
    simp
  | cons p t ih =>
    intro st
    rw [List.foldl_cons, ih]
    unfold deleteStep
    by_cases hp : seen.contains p.1
    · simp only [hp, if_true, List.countP_cons, deletedPred, Stats.mk.injEq]
      simp [hp]
    · simp only [hp, if_false, List.countP_cons, deletedPred, Stats.mk.injEq]
      simp [hp]
      omega

theorem delLoop_muts (resp : Nat → CallResponse) (seen : List String)
    (m : List (String × GoogleEvent)) :
    ∀ st : RunState, (m.foldl (deleteStep resp seen) st).muts =
      st.muts ++ (m.filter (deletedPred seen)).map
        (fun p => Mutation.delete p.2.id) := by
  induction m with
  | nil => intro st; simp
  | cons p t ih =>
    intro st
    rw [List.foldl_cons, ih]
    unfold deleteStep
    by_cases hp : p.1 ∈ seen
    · simp [List.filter_cons, deletedPred, hp]
    · simp [List.filter_cons, deletedPred, hp]

theorem syncEvents_stats (resp : Nat → CallResponse)
    (es : List SourceEvent) (gs : List GoogleEvent) :
    (syncEvents resp es gs).stats =
      { created := es.countP (createdPred (buildIndex gs))
        updated := es.countP (updatedPred (buildIndex gs))
        deleted := (buildIndex gs).countP (deletedPred (sourceUids es))
        unchanged := es.countP (unchangedPred (buildIndex gs)) } := by
  unfold syncEvents
  rw [delLoop_stats, syncLoop_stats]
  simp [sourceUids]

theorem syncEvents_muts (resp : Nat → CallResponse)
    (es : List SourceEvent) (gs : List GoogleEvent) :
    (syncEvents resp es gs).muts =
      es.flatMap (stepMut (buildIndex gs)) ++
        ((buildIndex gs).filter (deletedPred (sourceUids es))).map
          (fun p => Mutation.delete p.2.id) := by
  unfold syncEvents
  rw [delLoop_muts, syncLoop_muts]
  simp [sourceUids]

/-! ### Applying the issued mutations to the destination snapshot -/

theorem patchAll_id (muts : List Mutation) :
    ∀ g : GoogleEvent, (patchAll muts g).id = g.id := by
  induction muts with
  | nil => intro g; rfl
  | cons m rest ih =>
    intro g
    rcases m with b | ⟨i, b⟩ | i
    · exact ih g
    · show (patchAll rest (if g.id = i then patchEvent g b else g)).id = g.id
      by_cases h : g.id = i
      · rw [if_pos h, ih]; exact h.symm ▸ rfl
      · rw [if_neg h, ih]
    · exact ih g

theorem patchAll_append (m1 m2 : List Mutation) (g : GoogleEvent) :
    patchAll (m1 ++ m2) g = patchAll m2 (patchAll m1 g) := by
  unfold patchAll
  exact List.foldl_append _ _ _ _

theorem patchAll_eq_self (muts : List Mutation) :
    ∀ g : GoogleEvent, (∀ i b, Mutation.update i b ∈ muts → i ≠ g.id) →
      patchAll muts g = g := by
  induction muts with
  | nil => intro g _; rfl
  | cons m rest ih =>
    intro g hne
    rcases m with b | ⟨i, b⟩ | i
    · exact ih g (fun i b hm => hne i b (List.mem_cons_of_mem _ hm))
    · show patchAll rest (if g.id = i then patchEvent g b else g) = g
      have : i ≠ g.id := hne i b (List.mem_cons_self _ _)
      rw [if_neg (fun h => this h.symm)]
      exact ih g (fun i b hm => hne i b (List.mem_cons_of_mem _ hm))
    · exact ih g (fun i b hm => hne i b (List.mem_cons_of_mem _ hm))

theorem eventOfBody_id (n : Nat) (b : GoogleEventBody) :
    (eventOfBody n b).id = n := rfl

theorem foldl_applyMutation_cu (muts : List Mutation) :
    ∀ (dest : List GoogleEvent) (next : Nat),
      (∀ m ∈ muts, isCreateOrUpdate m = true) →
      (∀ i b, Mutation.update i b ∈ muts → i < next) →
      muts.foldl applyMutation (dest, next) =
        (dest.map (patchAll muts) ++ createdOf muts next,
          next + numCreates muts) := by
  induction muts with
  | nil =>
    intro dest next _ _
    have h1 : dest.map (patchAll []) = dest := by
      rw [show patchAll [] = fun g => g from rfl, List.map_id']
    simp [createdOf, numCreates, h1]
  | cons m rest ih =>
    intro dest next hcu hlt
    rcases m with b | ⟨i, b⟩ | i
    · rw [List.foldl_cons]
      show List.foldl applyMutation (dest ++ [eventOfBody next b], next + 1) rest = _
      rw [ih (dest ++ [eventOfBody next b]) (next + 1)
        (fun m hm => hcu m (List.mem_cons_of_mem _ hm))
        (fun i b hm => Nat.lt_succ_of_lt (hlt i b (List.mem_cons_of_mem _ hm)))]
      have hev : patchAll rest (eventOfBody next b) = eventOfBody next b := by
        apply patchAll_eq_self
        intro i b2 hm
        rw [eventOfBody_id]
        exact Nat.ne_of_lt (hlt i b2 (List.mem_cons_of_mem _ hm))
      have hpc : ∀ g, patchAll (Mutation.create b :: rest) g = patchAll rest g :=
        fun g => rfl
      rw [Prod.mk.injEq]
      constructor
      · rw [List.map_append]
        show dest.map (patchAll rest) ++ [patchAll rest (eventOfBody next b)] ++ _ = _
        rw [hev, List.append_assoc, List.singleton_append]
        have : dest.map (patchAll (Mutation.create b :: rest)) =
            dest.map (patchAll rest) := List.map_congr_left (fun g _ => hpc g)
        rw [this]
        rfl
      · show next + 1 + numCreates rest = next + numCreates (Mutation.create b :: rest)
        have : numCreates (Mutation.create b :: rest) = numCreates rest + 1 := by
          unfold numCreates
          rw [List.countP_cons]
          simp
        rw [this]
        omega
    · rw [List.foldl_cons]
      show List.foldl applyMutation
        (dest.map (fun g => if g.id = i then patchEvent g b else g), next) rest = _
      rw [ih _ next (fun m hm => hcu m (List.mem_cons_of_mem _ hm))
        (fun i b hm => hlt i b (List.mem_cons_of_mem _ hm))]
      rw [Prod.mk.injEq]
      constructor
      · rw [List.map_map]
        rfl
      · rfl
    · exact absurd (hcu _ (List.mem_cons_self _ _)) (by simp [isCreateOrUpdate])

theorem foldl_applyMutation_del (muts : List Mutation) :
    ∀ (dest : List GoogleEvent) (next : Nat),
      (∀ m ∈ muts, ∃ i, m = Mutation.delete i) →
      muts.foldl applyMutation (dest, next) =
        (dest.filter (fun g => !((delIdsOf muts).contains g.id)), next) := by
  induction muts with
  | nil =>
    intro dest next _
    simp [delIdsOf]
  | cons m rest ih =>
    intro dest next hdel
    rcases m with b | ⟨i, b⟩ | i
    · rcases hdel _ (List.mem_cons_self _ _) with ⟨i, hi⟩
      cases hi
    · rcases hdel _ (List.mem_cons_self _ _) with ⟨j, hj⟩
      cases hj
    · rw [List.foldl_cons]
      show List.foldl applyMutation (dest.filter (fun g => g.id ≠ i), next) rest = _
      rw [ih _ next (fun m hm => hdel m (List.mem_cons_of_mem _ hm))]
      rw [Prod.mk.injEq]
      constructor
      · rw [List.filter_filter]
        apply List.filter_congr
        intro g _
        show (!((delIdsOf rest).contains g.id) && decide (g.id ≠ i)) =
          !((delIdsOf (Mutation.delete i :: rest)).contains g.id)
        have : delIdsOf (Mutation.delete i :: rest) = i :: delIdsOf rest := rfl
        rw [this]
        by_cases hgi : g.id = i
        · simp [hgi]
        · simp [hgi, Ne.symm hgi]
      · rfl

theorem privUid_eventOfBody (n : Nat) (b : GoogleEventBody) :
    privUid (eventOfBody n b) =
      some b.extendedProperties.private_.outlookSyncUid := rfl

theorem privUid_patchEvent (g : GoogleEvent) (b : GoogleEventBody) :
    privUid (patchEvent g b) =
      some b.extendedProperties.private_.outlookSyncUid := rfl

theorem ownedUid_eventOfBody (n : Nat) (b : GoogleEventBody) :
    ownedUid (eventOfBody n b) =
      if b.extendedProperties.private_.outlookSyncUid = "" then none
      else some b.extendedProperties.private_.outlookSyncUid := by
  unfold ownedUid
  rw [privUid_eventOfBody]

theorem ownedUid_patchEvent (g : GoogleEvent) (b : GoogleEventBody) :
    ownedUid (patchEvent g b) =
      if b.extendedProperties.private_.outlookSyncUid = "" then none
      else some b.extendedProperties.private_.outlookSyncUid := by
  unfold ownedUid
  rw [privUid_patchEvent]

theorem desiredBody_uid (e : SourceEvent) :
    (desiredBody e).extendedProperties.private_.outlookSyncUid = e.uid := rfl

theorem desiredBody_lastModified (e : SourceEvent) :
    (desiredBody e).extendedProperties.private_.outlookLastModified =
      e.lastModified := rfl

theorem needsUpdate_eventOfBody_desired (n : Nat) (e : SourceEvent) :
    needsUpdate (eventOfBody n (desiredBody e)) e (desiredBody e) = false := by
  simp [needsUpdate, hasEventChanged, eventOfBody, privLastModified,
    desiredBody]

theorem needsUpdate_patchEvent_desired (g : GoogleEvent) (e : SourceEvent) :
    needsUpdate (patchEvent g (desiredBody e)) e (desiredBody e) = false := by
  simp [needsUpdate, hasEventChanged, patchEvent, privLastModified,
    desiredBody]

theorem mem_stepMut_update {index : List (String × GoogleEvent)}
    {e : SourceEvent} {i : Nat} {b : GoogleEventBody}
    (h : Mutation.update i b ∈ stepMut index e) :
    ∃ g, mapGet index e.uid = some g ∧ i = g.id ∧ b = desiredBody e ∧
      needsUpdate g e (desiredBody e) = true := by
  unfold stepMut at h
  rcases hm : mapGet index e.uid with _ | g <;> rw [hm] at h
  · simp at h
  · by_cases hu : needsUpdate g e (desiredBody e)
    · simp only [hu, if_true] at h
      simp at h
      exact ⟨g, rfl, h.1, h.2, hu⟩
    · simp [hu] at h

theorem mem_stepMut_create {index : List (String × GoogleEvent)}
    {e : SourceEvent} {b : GoogleEventBody}
    (h : Mutation.create b ∈ stepMut index e) :
    mapGet index e.uid = none ∧ b = desiredBody e := by
  unfold stepMut at h
  rcases hm : mapGet index e.uid with _ | g <;> rw [hm] at h
  · simp at h
    exact ⟨rfl, h⟩
  · by_cases hu : needsUpdate g e (desiredBody e) <;>
      simp [hu] at h

theorem stepMut_no_delete {index : List (String × GoogleEvent)}
    {e : SourceEvent} {i : Nat} : Mutation.delete i ∉ stepMut index e := by
  unfold stepMut
  rcases hm : mapGet index e.uid with _ | g
  · simp
  · by_cases hu : needsUpdate g e (desiredBody e) <;> simp [hu]

theorem stepMut_cu {index : List (String × GoogleEvent)} {e : SourceEvent} :
    ∀ m ∈ stepMut index e, isCreateOrUpdate m = true := by
  intro m hm
  unfold stepMut at hm
  rcases hidx : mapGet index e.uid with _ | g <;> rw [hidx] at hm
  · simp at hm
    subst hm
    rfl
  · by_cases hu : needsUpdate g e (desiredBody e)
    · simp only [hu, if_true] at hm
      simp at hm
      subst hm
      rfl
    · simp [hu] at hm

theorem flatMap_update_mem {index : List (String × GoogleEvent)}
    {es : List SourceEvent} {i : Nat} {b : GoogleEventBody}
    (h : Mutation.update i b ∈ es.flatMap (stepMut index)) :
    ∃ e ∈ es, ∃ g, mapGet index e.uid = some g ∧ i = g.id ∧
      b = desiredBody e ∧ needsUpdate g e (desiredBody e) = true := by
  rcases List.mem_flatMap.mp h with ⟨e, he, hm⟩
  exact ⟨e, he, mem_stepMut_update hm⟩

theorem flatMap_create_mem {index : List (String × GoogleEvent)}
    {es : List SourceEvent} {b : GoogleEventBody}
    (h : Mutation.create b ∈ es.flatMap (stepMut index)) :
    ∃ e ∈ es, mapGet index e.uid = none ∧ b = desiredBody e := by
  rcases List.mem_flatMap.mp h with ⟨e, he, hm⟩
  exact ⟨e, he, mem_stepMut_create hm⟩

theorem flatMap_no_delete {index : List (String × GoogleEvent)}
    {es : List SourceEvent} {i : Nat} :
    Mutation.delete i ∉ es.flatMap (stepMut index) := by
  intro h
  rcases List.mem_flatMap.mp h with ⟨e, _, hm⟩
  exact stepMut_no_delete hm

theorem flatMap_cu {index : List (String × GoogleEvent)}
    {es : List SourceEvent} :
    ∀ m ∈ es.flatMap (stepMut index), isCreateOrUpdate m = true := by
  intro m hm
  rcases List.mem_flatMap.mp hm with ⟨e, _, h2⟩
  exact stepMut_cu m h2

theorem mem_createdOf {x : GoogleEvent} (muts : List Mutation) :
    ∀ n, x ∈ createdOf muts n →
      ∃ n2 b, n ≤ n2 ∧ Mutation.create b ∈ muts ∧ x = eventOfBody n2 b := by
  induction muts with
  | nil => intro n h; simp [createdOf] at h
  | cons m rest ih =>
    intro n h
    rcases m with b | ⟨i, b⟩ | i
    · rcases List.mem_cons.mp h with h1 | h1
      · exact ⟨n, b, Nat.le_refl n, List.mem_cons_self _ _, h1⟩
      · rcases ih (n + 1) h1 with ⟨n2, b2, hle, hmem, hx⟩
        exact ⟨n2, b2, Nat.le_of_succ_le hle, List.mem_cons_of_mem _ hmem, hx⟩
    · rcases ih n h with ⟨n2, b2, hle, hmem, hx⟩
      exact ⟨n2, b2, hle, List.mem_cons_of_mem _ hmem, hx⟩
    · rcases ih n h with ⟨n2, b2, hle, hmem, hx⟩
      exact ⟨n2, b2, hle, List.mem_cons_of_mem _ hmem, hx⟩

theorem createdOf_mem_of_create {b : GoogleEventBody} (muts : List Mutation)
    (h : Mutation.create b ∈ muts) :
    ∀ n, ∃ n2, eventOfBody n2 b ∈ createdOf muts n := by
  induction muts with
  | nil => simp at h
  | cons m rest ih =>
    intro n
    rcases List.mem_cons.mp h with h1 | h1
    · subst h1
      exact ⟨n, List.mem_cons_self _ _⟩
    · rcases m with b2 | ⟨i, b2⟩ | i
      · rcases ih h1 (n + 1) with ⟨n2, hm⟩
        exact ⟨n2, List.mem_cons_of_mem _ hm⟩
      · exact ih h1 n
      · exact ih h1 n

/-! ### Preservation of ownership across a run -/

theorem patchEvent_id (g : GoogleEvent) (b : GoogleEventBody) :
    (patchEvent g b).id = g.id := rfl

theorem patchAll_single_update (g : GoogleEvent) (b : GoogleEventBody) :
    patchAll [Mutation.update g.id b] g = patchEvent g b := by
  unfold patchAll
  simp

theorem ownedUid_of_mapGet {dest : List GoogleEvent} {u : String}
    {g : GoogleEvent} (h : mapGet (buildIndex dest) u = some g) :
    g ∈ dest ∧ ownedUid g = some u :=
  mem_buildIndex (mapGet_mem h)

theorem nodup_split_ne {es s1 s2 : List SourceEvent} {e : SourceEvent}
    (hnu : (es.map (fun e => e.uid)).Nodup) (hsplit : es = s1 ++ e :: s2) :
    (∀ e2 ∈ s1, e2.uid ≠ e.uid) ∧ (∀ e2 ∈ s2, e2.uid ≠ e.uid) := by
  subst hsplit
  rw [List.map_append, List.map_cons, List.nodup_append] at hnu
  rcases hnu with ⟨_, hcons, hdisj⟩
  constructor
  · intro e2 h2 heq
    exact (List.disjoint_left.mp hdisj
      (List.mem_map.mpr ⟨e2, h2, rfl⟩)) (by rw [heq]; exact List.mem_cons_self _ _)
  · intro e2 h2 heq
    rcases List.nodup_cons.mp hcons with ⟨hnotin, _⟩
    exact hnotin (heq ▸ List.mem_map.mpr ⟨e2, h2, rfl⟩)

theorem no_update_target {es2 : List SourceEvent} {dest : List GoogleEvent}
    {u : String} {g : GoogleEvent}
    (hids : (dest.map (fun g => g.id)).Nodup)
    (hne : ∀ e2 ∈ es2, e2.uid ≠ u)
    (hg : mapGet (buildIndex dest) u = some g) :
    ∀ i b, Mutation.update i b ∈ es2.flatMap (stepMut (buildIndex dest)) →
      i ≠ g.id := by
  intro i b hm hig
  rcases flatMap_update_mem hm with ⟨e2, he2, h, hh, hi, _, _⟩
  rcases ownedUid_of_mapGet hh with ⟨hhd, hho⟩
  rcases ownedUid_of_mapGet hg with ⟨hgd, hgo⟩
  have hhg : h = g :=
    List.inj_on_of_nodup_map hids hhd hgd (by rw [← hi, hig])
  rw [hhg] at hho
  rw [hho] at hgo
  exact hne e2 he2 (Option.some.inj hgo)

theorem patchAll_A_of_indexed {es : List SourceEvent}
    {dest : List GoogleEvent} {e : SourceEvent} {g : GoogleEvent}
    (hnu : (es.map (fun e => e.uid)).Nodup)
    (hids : (dest.map (fun g => g.id)).Nodup)
    (he : e ∈ es) (hg : mapGet (buildIndex dest) e.uid = some g) :
    patchAll (es.flatMap (stepMut (buildIndex dest))) g =
      if needsUpdate g e (desiredBody e) then patchEvent g (desiredBody e)
      else g := by
  rcases List.append_of_mem he with ⟨s1, s2, hsplit⟩
  rcases nodup_split_ne hnu hsplit with ⟨hne1, hne2⟩
  rw [hsplit, List.flatMap_append, List.flatMap_cons, patchAll_append,
    patchAll_append]
  rw [patchAll_eq_self _ g (fun i b hm =>
    no_update_target hids hne1 hg i b hm)]
  by_cases hu : needsUpdate g e (desiredBody e)
  · rw [if_pos hu]
    have hstep : stepMut (buildIndex dest) e =
        [Mutation.update g.id (desiredBody e)] := by
      unfold stepMut
      rw [hg]
      simp [hu]
    rw [hstep, patchAll_single_update]
    apply patchAll_eq_self
    intro i b hm hig
    exact no_update_target hids hne2 hg i b hm (by rw [hig, patchEvent_id])
  · rw [if_neg hu]
    have hstep : stepMut (buildIndex dest) e = [] := by
      unfold stepMut
      rw [hg]
      simp [hu]
    rw [hstep]
    show patchAll (s2.flatMap (stepMut (buildIndex dest))) (patchAll [] g) = g
    exact patchAll_eq_self _ g (fun i b hm =>
      no_update_target hids hne2 hg i b hm)

theorem patchAll_pres_gen (muts : List Mutation) :
    ∀ (g0 g : GoogleEvent), g.id = g0.id → ownedUid g = ownedUid g0 →
      (∀ b, Mutation.update g0.id b ∈ muts → bodyOwnedUid b = ownedUid g0) →
      ownedUid (patchAll muts g) = ownedUid g0 := by
  induction muts with
  | nil => intro g0 g _ ho _; exact ho
  | cons m rest ih =>
    intro g0 g hid ho hb
    rcases m with b | ⟨i, b⟩ | i
    · exact ih g0 g hid ho (fun b hm => hb b (List.mem_cons_of_mem _ hm))
    · show ownedUid (patchAll rest (if g.id = i then patchEvent g b else g)) =
        ownedUid g0
      by_cases hgi : g.id = i
      · rw [if_pos hgi]
        have hi0 : g0.id = i := hid.symm.trans hgi
        have hup : Mutation.update g0.id b ∈ Mutation.update i b :: rest := by
          rw [hi0]
          exact List.mem_cons_self _ _
        have hbo := hb b hup
        apply ih g0 (patchEvent g b)
        · rw [patchEvent_id, hid]
        · rw [ownedUid_patchEvent]
          exact hbo
        · exact fun b2 hm => hb b2 (List.mem_cons_of_mem _ hm)
      · rw [if_neg hgi]
        exact ih g0 g hid ho (fun b hm => hb b (List.mem_cons_of_mem _ hm))
    · exact ih g0 g hid ho (fun b hm => hb b (List.mem_cons_of_mem _ hm))

theorem patchAll_A_pres {es : List SourceEvent} {dest : List GoogleEvent}
    {h0 : GoogleEvent}
    (hids : (dest.map (fun g => g.id)).Nodup) (hmem : h0 ∈ dest) :
    ownedUid (patchAll (es.flatMap (stepMut (buildIndex dest))) h0) =
      ownedUid h0 := by
  apply patchAll_pres_gen _ h0 h0 rfl rfl
  intro b hm
  rcases flatMap_update_mem hm with ⟨e2, _, h, hh, hi, hbody, _⟩
  rcases ownedUid_of_mapGet hh with ⟨hhd, hho⟩
  have hhg : h = h0 := List.inj_on_of_nodup_map hids hhd hmem hi.symm
  rw [hhg] at hho
  rw [hho, hbody]
  unfold bodyOwnedUid
  rw [desiredBody_uid]
  rw [if_neg (ownedUid_ne_empty (hhg ▸ hho))]

theorem delIdsOf_map_delete (l : List (String × GoogleEvent)) :
    delIdsOf (l.map (fun p => Mutation.delete p.2.id)) =
      l.map (fun p => p.2.id) := by
  induction l with
  | nil => rfl
  | cons p t ih =>
    show p.2.id :: delIdsOf (t.map (fun p => Mutation.delete p.2.id)) = _
    rw [ih]
    rfl

/-! ### The destination snapshot after one full run -/

theorem applyMutations_run (resp : Nat → CallResponse)
    (es : List SourceEvent) (dest : List GoogleEvent) (next : Nat)
    (hnext : ∀ g ∈ dest, g.id < next) :
    applyMutations dest next (syncEvents resp es dest).muts =
      run1Dest es dest next := by
  rw [syncEvents_muts]
  unfold applyMutations
  rw [List.foldl_append]
  have hlt : ∀ i b,
      Mutation.update i b ∈ es.flatMap (stepMut (buildIndex dest)) →
      i < next := by
    intro i b hm
    rcases flatMap_update_mem hm with ⟨e2, _, g, hg, hi, _, _⟩
    rcases ownedUid_of_mapGet hg with ⟨hgd, _⟩
    rw [hi]
    exact hnext g hgd
  rw [foldl_applyMutation_cu _ _ _ flatMap_cu hlt]
  have hdel : ∀ m ∈ ((buildIndex dest).filter
      (deletedPred (sourceUids es))).map (fun p => Mutation.delete p.2.id),
      ∃ i, m = Mutation.delete i := by
    intro m hm
    rcases List.mem_map.mp hm with ⟨p, _, hpm⟩
    exact ⟨p.2.id, hpm.symm⟩
  rw [foldl_applyMutation_del _ _ _ hdel]
  rw [delIdsOf_map_delete]
  rfl

theorem keep_of_indexed_seen {es : List SourceEvent}
    {dest : List GoogleEvent} {e : SourceEvent} {g : GoogleEvent}
    (hids : (dest.map (fun g => g.id)).Nodup) (he : e ∈ es)
    (hg : mapGet (buildIndex dest) e.uid = some g) :
    ((((buildIndex dest).filter (deletedPred (sourceUids es))).map
      (fun p => p.2.id)).contains g.id) = false := by
  rcases ownedUid_of_mapGet hg with ⟨hgd, hgo⟩
  by_contra hcon
  have hmem : g.id ∈ ((buildIndex dest).filter
      (deletedPred (sourceUids es))).map (fun p => p.2.id) := by
    cases hb : ((((buildIndex dest).filter
        (deletedPred (sourceUids es))).map (fun p => p.2.id)).contains g.id)
    · exact absurd hb hcon
    · exact List.elem_iff.mp hb
  rcases List.mem_map.mp hmem with ⟨p, hp, hpid⟩
  rcases List.mem_filter.mp hp with ⟨hpidx, hpdel⟩
  have hpent : (p.1, p.2) ∈ buildIndex dest := by
    rcases p with ⟨p1, p2⟩
    exact hpidx
  rcases mem_buildIndex hpent with ⟨hpd, hpo⟩
  have hpg : p.2 = g := List.inj_on_of_nodup_map hids hpd hgd hpid
  rw [hpg] at hpo
  have hp1 : p.1 = e.uid := by
    rw [hpo] at hgo
    exact Option.some.inj hgo
  unfold deletedPred at hpdel
  rw [hp1] at hpdel
  have : e.uid ∈ sourceUids es := List.mem_map.mpr ⟨e, he, rfl⟩
  simp [this] at hpdel

theorem mem_run1Dest_elim {es : List SourceEvent}
    {dest : List GoogleEvent} {next : Nat} {x : GoogleEvent}
    (h : x ∈ run1Dest es dest next) :
    (∃ h2 ∈ dest, x = patchAll (es.flatMap (stepMut (buildIndex dest))) h2) ∨
      x ∈ createdOf (es.flatMap (stepMut (buildIndex dest))) next := by
  unfold run1Dest at h
  rcases List.mem_filter.mp h with ⟨hmem, _⟩
  rcases List.mem_append.mp hmem with h1 | h1
  · rcases List.mem_map.mp h1 with ⟨h2, hh2, hx⟩
    exact Or.inl ⟨h2, hh2, hx.symm⟩
  · exact Or.inr h1

theorem run1Dest_keep {es : List SourceEvent} {dest : List GoogleEvent}
    {next : Nat} {x : GoogleEvent} (h : x ∈ run1Dest es dest next) :
    ((((buildIndex dest).filter (deletedPred (sourceUids es))).map
      (fun p => p.2.id)).contains x.id) = false := by
  unfold run1Dest at h
  rcases List.mem_filter.mp h with ⟨_, hkeep⟩
  cases hb : ((((buildIndex dest).filter
      (deletedPred (sourceUids es))).map (fun p => p.2.id)).contains x.id)
  · rfl
  · rw [hb] at hkeep
    simp at hkeep

theorem run1Dest_lookup {es : List SourceEvent} {dest : List GoogleEvent}
    {next : Nat} {e : SourceEvent}
    (hnu : (es.map (fun e => e.uid)).Nodup)
    (hne : ∀ e2 ∈ es, e2.uid ≠ "")
    (hids : (dest.map (fun g => g.id)).Nodup)
    (hown : (dest.filterMap ownedUid).Nodup)
    (hnext : ∀ g ∈ dest, g.id < next)
    (he : e ∈ es) :
    ∃ g2, mapGet (buildIndex (run1Dest es dest next)) e.uid = some g2 ∧
      needsUpdate g2 e (desiredBody e) = false := by
  rw [mapGet_buildIndex]
  have hx0 : ∃ x0 ∈ run1Dest es dest next, ownedUid x0 = some e.uid := by
    rcases hg : mapGet (buildIndex dest) e.uid with _ | g
    · have hc : Mutation.create (desiredBody e) ∈
          es.flatMap (stepMut (buildIndex dest)) := by
        apply List.mem_flatMap.mpr
        refine ⟨e, he, ?_⟩
        unfold stepMut
        rw [hg]
        exact List.mem_singleton.mpr rfl
      rcases createdOf_mem_of_create _ hc next with ⟨n2, hmem⟩
      refine ⟨eventOfBody n2 (desiredBody e), ?_, ?_⟩
      · unfold run1Dest
        apply List.mem_filter.mpr
        refine ⟨List.mem_append.mpr (Or.inr hmem), ?_⟩
        rcases mem_createdOf _ _ hmem with ⟨n3, b3, hle, _, heq⟩
        have hn23 : n2 = n3 := congrArg GoogleEvent.id heq
        have hnm : (eventOfBody n2 (desiredBody e)).id ∉
            (((buildIndex dest).filter (deletedPred (sourceUids es))).map
              (fun p => p.2.id)) := by
          intro hmm
          rcases List.mem_map.mp hmm with ⟨p, hp, hpid⟩
          rcases List.mem_filter.mp hp with ⟨hpidx, _⟩
          have hpent : (p.1, p.2) ∈ buildIndex dest := by
            rcases p with ⟨p1, p2⟩
            exact hpidx
          rcases mem_buildIndex hpent with ⟨hpd, _⟩
          have h1 := hnext p.2 hpd
          rw [eventOfBody_id] at hpid
          omega
        simp [hnm]
      · rw [ownedUid_eventOfBody, desiredBody_uid, if_neg (hne e he)]
    · rcases ownedUid_of_mapGet hg with ⟨hgd, hgo⟩
      refine ⟨patchAll (es.flatMap (stepMut (buildIndex dest))) g, ?_, ?_⟩
      · unfold run1Dest
        apply List.mem_filter.mpr
        constructor
        · exact List.mem_append.mpr (Or.inl (List.mem_map.mpr ⟨g, hgd, rfl⟩))
        · rw [patchAll_id, keep_of_indexed_seen hids he hg]
          rfl
      · rw [patchAll_A_pres hids hgd]
        exact hgo
  rcases hx0 with ⟨x0, hx0m, hx0o⟩
  rcases lastOwned_isSome hx0m hx0o with ⟨g2, hg2⟩
  refine ⟨g2, hg2, ?_⟩
  rcases lastOwned_mem hg2 with ⟨hg2m, hg2o⟩
  rcases mem_run1Dest_elim hg2m with ⟨h2, hh2d, hg2eq⟩ | hg2cr
  · have hh2o : ownedUid h2 = some e.uid := by
      rw [hg2eq, patchAll_A_pres hids hh2d] at hg2o
      exact hg2o
    rcases hg : mapGet (buildIndex dest) e.uid with _ | g
    · rw [mapGet_buildIndex] at hg
      rcases lastOwned_isSome hh2d hh2o with ⟨w, hw⟩
      rw [hg] at hw
      exact absurd hw (by simp)
    · rcases ownedUid_of_mapGet hg with ⟨hgd, hgo⟩
      have hh2g : h2 = g := owned_inj hown hh2d hgd hh2o hgo
      rw [hg2eq, hh2g, patchAll_A_of_indexed hnu hids he hg]
      by_cases hu : needsUpdate g e (desiredBody e)
      · rw [if_pos hu]
        exact needsUpdate_patchEvent_desired g e
      · rw [if_neg hu]
        simpa using hu
  · rcases mem_createdOf _ _ hg2cr with ⟨n3, b3, _, hcr, heq⟩
    rcases flatMap_create_mem hcr with ⟨e2, he2, _, hb3⟩
    rw [heq, hb3] at hg2o ⊢
    rw [ownedUid_eventOfBody, desiredBody_uid, if_neg (hne e2 he2)] at hg2o
    have he2e : e2 = e :=
      List.inj_on_of_nodup_map hnu he2 he (Option.some.inj hg2o)
    rw [he2e]
    exact needsUpdate_eventOfBody_desired n3 e

theorem run1Dest_entries_seen {es : List SourceEvent}
    {dest : List GoogleEvent} {next : Nat}
    (hne : ∀ e2 ∈ es, e2.uid ≠ "")
    (hids : (dest.map (fun g => g.id)).Nodup)
    (hown : (dest.filterMap ownedUid).Nodup) :
    ∀ p ∈ buildIndex (run1Dest es dest next), p.1 ∈ sourceUids es := by
  intro p hp
  have hpent : (p.1, p.2) ∈ buildIndex (run1Dest es dest next) := by
    rcases p with ⟨p1, p2⟩
    exact hp
  rcases mem_buildIndex hpent with ⟨hpd, hpo⟩
  rcases mem_run1Dest_elim hpd with ⟨h2, hh2d, hpeq⟩ | hpcr
  · by_contra hnotin
    have hh2o : ownedUid h2 = some p.1 := by
      rw [hpeq, patchAll_A_pres hids hh2d] at hpo
      exact hpo
    rcases lastOwned_isSome hh2d hh2o with ⟨w, hw⟩
    have hg : mapGet (buildIndex dest) p.1 = some w := by
      rw [mapGet_buildIndex]
      exact hw
    rcases ownedUid_of_mapGet hg with ⟨hwd, hwo⟩
    have hwh2 : w = h2 := owned_inj hown hwd hh2d hwo hh2o
    have hfil : (p.1, w) ∈ (buildIndex dest).filter
        (deletedPred (sourceUids es)) := by
      apply List.mem_filter.mpr
      refine ⟨mapGet_mem hg, ?_⟩
      unfold deletedPred
      simp [hnotin]
    have hidmem : p.2.id ∈ (((buildIndex dest).filter
        (deletedPred (sourceUids es))).map (fun p => p.2.id)) := by
      apply List.mem_map.mpr
      refine ⟨(p.1, w), hfil, ?_⟩
      show w.id = p.2.id
      rw [hwh2, hpeq, patchAll_id]
    have hcont : ((((buildIndex dest).filter
        (deletedPred (sourceUids es))).map (fun p => p.2.id)).contains
          p.2.id) = true := List.elem_iff.mpr hidmem
    have hkeep := run1Dest_keep hpd
    rw [hkeep] at hcont
    exact absurd hcont (by simp)
  · rcases mem_createdOf _ _ hpcr with ⟨n3, b3, _, hcr, heq⟩
    rcases flatMap_create_mem hcr with ⟨e2, he2, _, hb3⟩
    rw [heq, hb3, ownedUid_eventOfBody, desiredBody_uid,
      if_neg (hne e2 he2)] at hpo
    have hp1 : p.1 = e2.uid := (Option.some.inj hpo).symm
    rw [hp1]
    exact List.mem_map.mpr ⟨e2, he2, rfl⟩


/-! ### Remaining helper lemmas -/

theorem splitT0_no_T (s : String) : 'T' ∉ (splitT0 s).data := by
  intro h
  have := List.mem_takeWhile_imp h
  simp at this

theorem splitT0_before_T (d r : List Char) (hd : 'T' ∉ d) :
    (splitT0 ⟨d ++ 'T' :: r⟩).data = d := by
  show (d ++ 'T' :: r).takeWhile (fun c => c ≠ 'T') = d
  induction d with
  | nil =>
    rw [List.nil_append, List.takeWhile_cons]
    simp
  | cons c t ih =>
    have hc : c ≠ 'T' := by
      intro h
      exact hd (h ▸ List.mem_cons_self _ _)
    have ht : 'T' ∉ t := fun h => hd (List.mem_cons_of_mem _ h)
    rw [List.cons_append, List.takeWhile_cons, if_pos (by simp [hc]), ih ht]

theorem countP_three_sum (index : List (String × GoogleEvent))
    (es : List SourceEvent) :
    es.countP (createdPred index) + es.countP (updatedPred index) +
      es.countP (unchangedPred index) = es.length := by
  induction es with
  | nil => rfl
  | cons e t ih =>
    rw [List.countP_cons, List.countP_cons, List.countP_cons]
    rcases h : mapGet index e.uid with _ | g
    · simp only [createdPred, updatedPred, unchangedPred, h, List.length_cons]
      simp
      omega
    · by_cases hu : needsUpdate g e (desiredBody e)
      · simp only [createdPred, updatedPred, unchangedPred, h, List.length_cons]
        simp [hu]
        omega
      · simp only [createdPred, updatedPred, unchangedPred, h, List.length_cons]
        simp [hu]
        omega

theorem applyMutations_untouched (muts : List Mutation) :
    ∀ (dest : List GoogleEvent) (next : Nat) (g : GoogleEvent),
      g ∈ dest →
      (∀ b, Mutation.update g.id b ∉ muts) →
      Mutation.delete g.id ∉ muts →
      g ∈ (muts.foldl applyMutation (dest, next)).1 := by
  induction muts with
  | nil => intro dest next g hg _ _; exact hg
  | cons m rest ih =>
    intro dest next g hg hupd hdel
    have hupd2 : ∀ b, Mutation.update g.id b ∉ rest :=
      fun b h => hupd b (List.mem_cons_of_mem _ h)
    have hdel2 : Mutation.delete g.id ∉ rest :=
      fun h => hdel (List.mem_cons_of_mem _ h)
    rcases m with b | ⟨i, b⟩ | i
    · exact ih _ _ g (List.mem_append_left _ hg) hupd2 hdel2
    · have hig : g.id ≠ i := by
        intro h
        exact hupd b (by rw [h]; exact List.mem_cons_self _ _)
      exact ih _ _ g (List.mem_map.mpr ⟨g, hg, if_neg hig⟩) hupd2 hdel2
    · have hig : g.id ≠ i := by
        intro h
        exact hdel (by rw [h]; exact List.mem_cons_self _ _)
      exact ih _ _ g (List.mem_filter.mpr ⟨hg, by simp [hig]⟩) hupd2 hdel2

/-! ### Claim theorems -/

/-- Claim C10: in every run, each source event increments exactly one
of the created, updated, unchanged counters, so their sum equals the
number of source events, and the deleted counter equals the number of
DestinationIndex entries whose sourceUid is not among the source
uids. -/
theorem counter_sum_invariant (resp : Nat → CallResponse)
    (es : List SourceEvent) (gs : List GoogleEvent) :
    (syncEvents resp es gs).stats.created +
        (syncEvents resp es gs).stats.updated +
        (syncEvents resp es gs).stats.unchanged = es.length ∧
    (syncEvents resp es gs).stats.deleted =
      ((buildIndex gs).filter (deletedPred (sourceUids es))).length := by
  rw [syncEvents_stats]
  exact ⟨countP_three_sum (buildIndex gs) es,
    List.countP_eq_length_filter _ _⟩

/-- Claim C7: the statistics and the mutation list of a run do not
depend on the responses of the individual destination calls (a failing
call is only logged, the loop continues, and the counter is still
incremented for the attempted mutation), and a not-found response to a
delete produces no error report while genuine failures of each call
kind are logged. -/
theorem per_item_failure_semantics (resp : Nat → CallResponse)
    (es : List SourceEvent) (gs : List GoogleEvent) :
    (syncEvents resp es gs).stats = (syncEvents allOk es gs).stats ∧
    (syncEvents resp es gs).muts = (syncEvents allOk es gs).muts ∧
    createGoogleEvent { ok := false, status := 500 } = [.createFailed] ∧
    updateGoogleEvent { ok := false, status := 500 } = [.updateFailed] ∧
    deleteGoogleEvent { ok := false, status := 404 } = [] ∧
    deleteGoogleEvent { ok := false, status := 500 } = [.deleteFailed] := by
  refine ⟨?_, ?_, rfl, rfl, rfl, rfl⟩
  · rw [syncEvents_stats, syncEvents_stats]
  · rw [syncEvents_muts, syncEvents_muts]

/-- Claim C9: when the configured SYNC_TOKEN is unset or empty, every
request to the sync path is answered 401 Unauthorized without running a
sync, regardless of the supplied token and of what a sync run would
return. -/
theorem fail_closed_trigger (syncToken : Option String) (runSync : Resp)
    (req : Req) (hpath : req.path = "/sync")
    (htok : jsTruthy syncToken = false) :
    fetchHandler syncToken runSync req =
      { status := 401, body := "Unauthorized" } := by
  unfold fetchHandler
  rw [if_pos hpath, if_pos (Or.inl (by simp [htok]))]

/-- Witness for the fail-closed trigger: unset secret, supplied token
present, still 401. -/
theorem fail_closed_trigger_witness :
    fetchHandler none { status := 200, body := "ok" }
      { path := "/sync", headerToken := none, queryToken := some "guess" } =
      { status := 401, body := "Unauthorized" } :=
  fail_closed_trigger none _ _ rfl rfl

/-- Counterexample to claim C4: an unauthenticated request to the sync
path is answered 401 Unauthorized, while an unknown path is answered
404 Not found; the two responses differ, so the sync endpoint is
distinguishable from a nonexistent resource. -/
theorem auth_indistinguishable_cex :
    fetchHandler (some "secret") { status := 200, body := "ok" }
      { path := "/sync", headerToken := none, queryToken := none } =
      { status := 401, body := "Unauthorized" } ∧
    fetchHandler (some "secret") { status := 200, body := "ok" }
      { path := "/missing", headerToken := none, queryToken := none } =
      { status := 404, body := "Not found" } ∧
    ({ status := 401, body := "Unauthorized" } : Resp) ≠
      { status := 404, body := "Not found" } := by
  refine ⟨by decide, by decide, by decide⟩

/-- Claim C4 (amended): an authentication failure on the sync path is
answered with status 401 and body Unauthorized, while a request to any
other path is answered with status 404 and body Not found; the two
responses are not identical. -/
theorem auth_failure_responses (syncToken : Option String)
    (runSync : Resp) (req req2 : Req) (hpath : req.path = "/sync")
    (hauth : ¬ jsTruthy syncToken = true ∨
      effectiveToken req.headerToken req.queryToken ≠ syncToken)
    (hpath2 : req2.path ≠ "/sync") :
    fetchHandler syncToken runSync req =
      { status := 401, body := "Unauthorized" } ∧
    fetchHandler syncToken runSync req2 =
      { status := 404, body := "Not found" } := by
  constructor
  · unfold fetchHandler
    rw [if_pos hpath, if_pos hauth]
  · unfold fetchHandler
    rw [if_neg hpath2]

/-- Witness for the amended authentication-response theorem at a
concrete wrong token and a concrete unknown path. -/
theorem auth_failure_responses_witness :
    fetchHandler (some "secret") { status := 200, body := "ok" }
      { path := "/sync", headerToken := some "wrong", queryToken := none } =
      { status := 401, body := "Unauthorized" } ∧
    fetchHandler (some "secret") { status := 200, body := "ok" }
      { path := "/other", headerToken := some "wrong", queryToken := none } =
      { status := 404, body := "Not found" } :=
  auth_failure_responses (some "secret") _ _ _ rfl
    (Or.inr (by decide)) (by decide)

/-- Claim C8: for an all-day source event the desired representation
encodes start and end as date-only fields holding exactly the part of
the instant before the first T (so no time component remains), and for
a timed event start and end are encoded as instant fields. -/
theorem all_day_encoding (e : SourceEvent) :
    (e.isAllDay = true →
      (desiredBody e).start = .date (splitT0 e.start) ∧
      (desiredBody e).end_ = .date (splitT0 e.end_) ∧
      'T' ∉ (splitT0 e.start).data ∧
      (∀ d r, e.start.data = d ++ 'T' :: r → 'T' ∉ d →
        (splitT0 e.start).data = d)) ∧
    (e.isAllDay = false →
      (desiredBody e).start = .dateTime e.start ∧
      (desiredBody e).end_ = .dateTime e.end_) := by
  constructor
  · intro h
    refine ⟨by simp [desiredBody, h], by simp [desiredBody, h],
      splitT0_no_T e.start, ?_⟩
    intro d r hdr hd
    have hs : e.start = ⟨d ++ 'T' :: r⟩ := congrArg String.mk hdr
    rw [hs]
    exact splitT0_before_T d r hd
  · intro h
    exact ⟨by simp [desiredBody, h], by simp [desiredBody, h]⟩

/-- Witness for the all-day encoding at the concrete instant from the
specification example. -/
theorem all_day_encoding_witness :
    exAllDay.isAllDay = true ∧
    (desiredBody exAllDay).start = .date "2024-06-01" := by
  refine ⟨rfl, ?_⟩
  have h := (all_day_encoding exAllDay).1 rfl
  rw [h.1]
  decide

/-- Claim C5: for a source event whose uid is indexed, the loop body
issues an update (against the existing identifier, with the desired
body, incrementing the updated counter) exactly when the stored
sourceLastModified differs from the source lastModified or one of
summary, description, location differs; when neither check triggers,
no mutation is recorded and only the unchanged counter moves. -/
theorem change_detector_policy (resp : Nat → CallResponse)
    (index : List (String × GoogleEvent)) (st : RunState)
    (e : SourceEvent) (g : GoogleEvent)
    (h : mapGet index e.uid = some g) :
    ((privLastModified g ≠ some e.lastModified ∨
        hasEventChanged g (desiredBody e) = true) →
      syncStep resp index st e =
        { stats := { st.stats with updated := st.stats.updated + 1 }
          muts := st.muts ++ [.update g.id (desiredBody e)]
          logs := st.logs ++ updateGoogleEvent (resp st.calls)
          calls := st.calls + 1 }) ∧
    ((privLastModified g = some e.lastModified ∧
        hasEventChanged g (desiredBody e) = false) →
      syncStep resp index st e =
        { st with stats :=
            { st.stats with unchanged := st.stats.unchanged + 1 } }) := by
  constructor
  · intro hcond
    have hne2 : needsUpdate g e (desiredBody e) = true := by
      unfold needsUpdate
      rcases hcond with h1 | h1
      · simp [bne_iff_ne, h1]
      · simp [h1]
    simp [syncStep, h, hne2]
  · intro hcond
    have hne2 : needsUpdate g e (desiredBody e) = false := by
      unfold needsUpdate
      simp [hcond.1, hcond.2]
    simp [syncStep, h, hne2]

/-- Witness for the change-detector policy: an up-to-date destination
item produces no mutation and one unchanged tick. -/
theorem change_detector_policy_witness :
    mapGet [("A", eventOfBody 1 (desiredBody exEvent))] exEvent.uid =
      some (eventOfBody 1 (desiredBody exEvent)) ∧
    privLastModified (eventOfBody 1 (desiredBody exEvent)) =
      some exEvent.lastModified ∧
    hasEventChanged (eventOfBody 1 (desiredBody exEvent))
      (desiredBody exEvent) = false ∧
    syncStep allOk [("A", eventOfBody 1 (desiredBody exEvent))]
      { stats := { created := 0, updated := 0, deleted := 0, unchanged := 0 }
        muts := [], logs := [], calls := 0 } exEvent =
      { stats := { created := 0, updated := 0, deleted := 0, unchanged := 1 }
        muts := [], logs := [], calls := 0 } := by
  refine ⟨by decide, by decide, by decide, ?_⟩
  exact (change_detector_policy allOk
    [("A", eventOfBody 1 (desiredBody exEvent))]
    { stats := { created := 0, updated := 0, deleted := 0, unchanged := 0 }
      muts := [], logs := [], calls := 0 } exEvent
    (eventOfBody 1 (desiredBody exEvent)) (by decide)).2
    ⟨by decide, by decide⟩

/-- Claim C2: a destination item without a truthy correlation payload
is never the target of an update or delete call issued by the
reconciler and survives the application of the whole run unchanged,
for any source content.  Destination item identifiers are assumed
pairwise distinct (as the destination API guarantees). -/
theorem no_foreign_mutation (resp : Nat → CallResponse)
    (es : List SourceEvent) (dest : List GoogleEvent) (next : Nat)
    (g : GoogleEvent)
    (hids : (dest.map (fun x => x.id)).Nodup)
    (hg : g ∈ dest) (hfor : ownedUid g = none) :
    (∀ b, Mutation.update g.id b ∉ (syncEvents resp es dest).muts) ∧
    Mutation.delete g.id ∉ (syncEvents resp es dest).muts ∧
    g ∈ applyMutations dest next (syncEvents resp es dest).muts := by
  have hupd : ∀ b, Mutation.update g.id b ∉ (syncEvents resp es dest).muts := by
    intro b hmem
    rw [syncEvents_muts] at hmem
    rcases List.mem_append.mp hmem with h1 | h1
    · rcases flatMap_update_mem h1 with ⟨e2, _, h, hh, hi, _, _⟩
      rcases ownedUid_of_mapGet hh with ⟨hhd, hho⟩
      have : h = g := List.inj_on_of_nodup_map hids hhd hg hi.symm
      rw [this, hfor] at hho
      exact absurd hho (by simp)
    · rcases List.mem_map.mp h1 with ⟨p, _, hpe⟩
      cases hpe
  have hdel : Mutation.delete g.id ∉ (syncEvents resp es dest).muts := by
    intro hmem
    rw [syncEvents_muts] at hmem
    rcases List.mem_append.mp hmem with h1 | h1
    · exact flatMap_no_delete h1
    · rcases List.mem_map.mp h1 with ⟨p, hp, hpe⟩
      rcases List.mem_filter.mp hp with ⟨hpidx, _⟩
      have hpent : (p.1, p.2) ∈ buildIndex dest := by
        rcases p with ⟨p1, p2⟩
        exact hpidx
      rcases mem_buildIndex hpent with ⟨hpd, hpo⟩
      have hpid : p.2.id = g.id := Mutation.delete.inj hpe
      have : p.2 = g := List.inj_on_of_nodup_map hids hpd hg hpid
      rw [this, hfor] at hpo
      exact absurd hpo (by simp)
  exact ⟨hupd, hdel, applyMutations_untouched _ dest next g hg hupd hdel⟩

/-- Witness for the no-foreign-mutation theorem: a payload-free item
beside a source event that creates a new item. -/
theorem no_foreign_mutation_witness :
    (([exForeign] : List GoogleEvent).map (fun x => x.id)).Nodup ∧
    exForeign ∈ ([exForeign] : List GoogleEvent) ∧
    ownedUid exForeign = none ∧
    (∀ b, Mutation.update exForeign.id b ∉
      (syncEvents allOk [exEvent] [exForeign]).muts) ∧
    Mutation.delete exForeign.id ∉
      (syncEvents allOk [exEvent] [exForeign]).muts ∧
    exForeign ∈ applyMutations [exForeign] 8
      (syncEvents allOk [exEvent] [exForeign]).muts := by
  have h := no_foreign_mutation allOk [exEvent] [exForeign] 8 exForeign
    (by decide) (by decide) (by decide)
  exact ⟨by decide, by decide, by decide, h.1, h.2.1, h.2.2⟩

/-- Claim C6: for a DestinationIndex entry whose sourceUid does not
occur among the source uids, exactly one delete call is issued against
the identifier of its item; the deleted counter equals the number of
such entries; and with an empty source snapshot every owned
destination item is deleted (assuming the destination well-formedness
of pairwise-distinct item identifiers and at most one owned item per
uid). -/
theorem delete_on_disappearance (resp : Nat → CallResponse)
    (es : List SourceEvent) (dest : List GoogleEvent)
    (u : String) (g : GoogleEvent)
    (hids : (dest.map (fun x => x.id)).Nodup)
    (hown : (dest.filterMap ownedUid).Nodup)
    (hentry : (u, g) ∈ buildIndex dest)
    (hunseen : u ∉ sourceUids es) :
    (syncEvents resp es dest).muts.count (Mutation.delete g.id) = 1 ∧
    (syncEvents resp es dest).stats.deleted =
      ((buildIndex dest).filter (deletedPred (sourceUids es))).length ∧
    (es = [] → ∀ g2 ∈ dest, ∀ u2, ownedUid g2 = some u2 →
      Mutation.delete g2.id ∈ (syncEvents resp es dest).muts) := by
  refine ⟨?_, ?_, ?_⟩
  · rw [syncEvents_muts, List.count_append]
    have hA : (es.flatMap (stepMut (buildIndex dest))).count
        (Mutation.delete g.id) = 0 :=
      List.count_eq_zero.mpr flatMap_no_delete
    have hentry2 : (u, g) ∈ (buildIndex dest).filter
        (deletedPred (sourceUids es)) := by
      apply List.mem_filter.mpr
      refine ⟨hentry, ?_⟩
      unfold deletedPred
      simp [hunseen]
    have hfilnodup : ((buildIndex dest).filter
        (deletedPred (sourceUids es))).Nodup :=
      ((nodup_fst_buildIndex dest).of_map _).filter _
    have hmapnodup : (((buildIndex dest).filter
        (deletedPred (sourceUids es))).map
          (fun p => Mutation.delete p.2.id)).Nodup := by
      apply List.Nodup.map_on ?_ hfilnodup
      intro p hp q hq hpq
      have hpid : p.2.id = q.2.id := Mutation.delete.inj hpq
      have hpe : (p.1, p.2) ∈ buildIndex dest := by
        rcases p with ⟨p1, p2⟩
        exact (List.mem_filter.mp hp).1
      have hqe : (q.1, q.2) ∈ buildIndex dest := by
        rcases q with ⟨q1, q2⟩
        exact (List.mem_filter.mp hq).1
      rcases mem_buildIndex hpe with ⟨hpd, hpo⟩
      rcases mem_buildIndex hqe with ⟨hqd, hqo⟩
      have hval : p.2 = q.2 := List.inj_on_of_nodup_map hids hpd hqd hpid
      have hkey : p.1 = q.1 := by
        rw [hval] at hpo
        exact Option.some.inj (hpo.symm.trans hqo)
      rcases p with ⟨p1, p2⟩
      rcases q with ⟨q1, q2⟩
      simp only at hval hkey
      rw [hval, hkey]
    have hD : (((buildIndex dest).filter
        (deletedPred (sourceUids es))).map
          (fun p => Mutation.delete p.2.id)).count
            (Mutation.delete g.id) = 1 := by
      apply List.count_eq_one_of_mem hmapnodup
      exact List.mem_map.mpr ⟨(u, g), hentry2, rfl⟩
    rw [hA, hD]
  · rw [syncEvents_stats]
    exact List.countP_eq_length_filter _ _
  · intro hes g2 hg2 u2 ho2
    subst hes
    rcases lastOwned_isSome hg2 ho2 with ⟨w, hw⟩
    have hget : mapGet (buildIndex dest) u2 = some w := by
      rw [mapGet_buildIndex]
      exact hw
    rcases ownedUid_of_mapGet hget with ⟨hwd, hwo⟩
    have hwg : w = g2 := owned_inj hown hwd hg2 hwo ho2
    rw [syncEvents_muts]
    apply List.mem_append_right
    apply List.mem_map.mpr
    refine ⟨(u2, w), ?_, by rw [hwg]⟩
    apply List.mem_filter.mpr
    refine ⟨mapGet_mem hget, ?_⟩
    unfold deletedPred
    simp [sourceUids]

/-- Witness for delete-on-disappearance: an owned item whose uid is
absent from a one-event source snapshot receives exactly one delete. -/
theorem delete_on_disappearance_witness :
    (([exDup1] : List GoogleEvent).map (fun x => x.id)).Nodup ∧
    (([exDup1] : List GoogleEvent).filterMap ownedUid).Nodup ∧
    ("B", exDup1) ∈ buildIndex [exDup1] ∧
    "B" ∉ sourceUids [exEvent] ∧
    (syncEvents allOk [exEvent] [exDup1]).muts.count
      (Mutation.delete exDup1.id) = 1 := by
  have h := delete_on_disappearance allOk [exEvent] [exDup1] "B" exDup1
    (by decide) (by decide) (by decide) (by decide)
  exact ⟨by decide, by decide, by decide, by decide, h.1⟩

/-- Counterexample to claim C3: a source event whose attendee list
became empty triggers an update whose body carries no attendees key,
and because updateGoogleEvent issues a PATCH, applying the run leaves
the old attendee on the destination item instead of removing it, so
the write is not a full overwrite of the managed fields. -/
theorem update_full_overwrite_cex :
    updateGoogleEventMethod = "PATCH" ∧
    (syncEvents allOk [exEvent] [exOwnedItem]).muts =
      [Mutation.update 1 (desiredBody exEvent)] ∧
    (desiredBody exEvent).attendees = none ∧
    applyMutations [exOwnedItem] 2
      (syncEvents allOk [exEvent] [exOwnedItem]).muts =
      [patchEvent exOwnedItem (desiredBody exEvent)] ∧
    (patchEvent exOwnedItem (desiredBody exEvent)).attendees =
      some [exAttendee] := by
  exact ⟨rfl, by decide, rfl, by decide, rfl⟩

/-- Claim C3 (amended): an update is issued as a PATCH, a partial
merge: the fields present in every update body (summary, description,
location, start, end and the correlation payload) replace the stored
values, while attendees and organizer are retained from the existing
item whenever the desired body omits them (attendees empty, organizer
absent), and replaced when the body carries them. -/
theorem update_patch_semantics (g : GoogleEvent) (b : GoogleEventBody) :
    updateGoogleEventMethod = "PATCH" ∧
    (patchEvent g b).summary = some b.summary ∧
    (patchEvent g b).description = some b.description ∧
    (patchEvent g b).location = some b.location ∧
    (patchEvent g b).start = some b.start ∧
    (patchEvent g b).end_ = some b.end_ ∧
    privUid (patchEvent g b) =
      some b.extendedProperties.private_.outlookSyncUid ∧
    privLastModified (patchEvent g b) =
      some b.extendedProperties.private_.outlookLastModified ∧
    (b.attendees = none → (patchEvent g b).attendees = g.attendees) ∧
    (∀ a, b.attendees = some a → (patchEvent g b).attendees = some a) ∧
    (b.organizer = none → (patchEvent g b).organizer = g.organizer) ∧
    (∀ o, b.organizer = some o → (patchEvent g b).organizer = some o) := by
  refine ⟨rfl, rfl, rfl, rfl, rfl, rfl, rfl, rfl, ?_, ?_, ?_, ?_⟩
  · intro h
    simp [patchEvent, h]
  · intro a h
    simp [patchEvent, h]
  · intro h
    simp [patchEvent, h]
  · intro o h
    simp [patchEvent, h]

/-- Witness for the patch semantics: the body without attendees leaves
the stored attendee in place. -/
theorem update_patch_semantics_witness :
    (desiredBody exEvent).attendees = none ∧
    (patchEvent exOwnedItem (desiredBody exEvent)).attendees =
      exOwnedItem.attendees :=
  ⟨rfl, ((update_patch_semantics exOwnedItem
    (desiredBody exEvent)).2.2.2.2.2.2.2.2).1 rfl⟩

/-- Counterexample to claim C1: with two destination items sharing the
owned uid B (the index keeps only the later one) and an empty source
list (whose uids are vacuously pairwise distinct), the first run
deletes only the indexed duplicate, and the second run, instead of
being a no-op, deletes the survivor: its deleted counter is 1, not
0. -/
theorem reconcile_idempotent_cex :
    ((([] : List SourceEvent).map (fun e => e.uid)).Nodup) ∧
    (syncEvents allOk [] (applyMutations [exDup1, exDup2] 3
      (syncEvents allOk [] [exDup1, exDup2]).muts)).stats.deleted = 1 := by
  exact ⟨by decide, by decide⟩

/-- Claim C1 (amended): for a source snapshot with pairwise-distinct
non-empty uids and a well-formed destination snapshot (pairwise
distinct item identifiers, at most one owned item per uid, and fresh
identifiers assigned above the existing ones), running the reconciler
a second time against the destination state produced by the first run
yields zero created, updated and deleted and an unchanged count equal
to the number of source events, for any per-call responses in either
run. -/
theorem reconcile_idempotent (resp1 resp2 : Nat → CallResponse)
    (es : List SourceEvent) (dest : List GoogleEvent) (next : Nat)
    (hnu : (es.map (fun e => e.uid)).Nodup)
    (hne : ∀ e2 ∈ es, e2.uid ≠ "")
    (hids : (dest.map (fun g => g.id)).Nodup)
    (hown : (dest.filterMap ownedUid).Nodup)
    (hnext : ∀ g ∈ dest, g.id < next) :
    (syncEvents resp2 es (applyMutations dest next
      (syncEvents resp1 es dest).muts)).stats =
      { created := 0, updated := 0, deleted := 0,
        unchanged := es.length } := by
  rw [applyMutations_run resp1 es dest next hnext, syncEvents_stats]
  have hc : es.countP (createdPred (buildIndex (run1Dest es dest next))) =
      0 := by
    rw [List.countP_eq_zero]
    intro e he
    rcases run1Dest_lookup hnu hne hids hown hnext he with ⟨g2, hg2, _⟩
    simp [createdPred, hg2]
  have hu : es.countP (updatedPred (buildIndex (run1Dest es dest next))) =
      0 := by
    rw [List.countP_eq_zero]
    intro e he
    rcases run1Dest_lookup hnu hne hids hown hnext he with ⟨g2, hg2, hupd⟩
    simp [updatedPred, hg2, hupd]
  have hn : es.countP (unchangedPred (buildIndex (run1Dest es dest next))) =
      es.length := by
    rw [List.countP_eq_length]
    intro e he
    rcases run1Dest_lookup hnu hne hids hown hnext he with ⟨g2, hg2, hupd⟩
    simp [unchangedPred, hg2, hupd]
  have hd : (buildIndex (run1Dest es dest next)).countP
      (deletedPred (sourceUids es)) = 0 := by
    rw [List.countP_eq_zero]
    intro p hp
    have hseen := run1Dest_entries_seen hne hids hown p hp
    simp [deletedPred, hseen]
  rw [hc, hu, hn, hd]

/-- Witness for the amended idempotence theorem: one source event and
an empty destination. -/
theorem reconcile_idempotent_witness :
    (([exEvent].map (fun e => e.uid)).Nodup ∧
      (∀ e2 ∈ [exEvent], e2.uid ≠ "") ∧
      ((([] : List GoogleEvent)).map (fun g => g.id)).Nodup ∧
      (([] : List GoogleEvent).filterMap ownedUid).Nodup ∧
      (∀ g ∈ ([] : List GoogleEvent), g.id < 1)) ∧
    (syncEvents allOk [exEvent] (applyMutations [] 1
      (syncEvents allOk [exEvent] []).muts)).stats =
      { created := 0, updated := 0, deleted := 0, unchanged := 1 } := by
  refine ⟨⟨by decide, by decide, by decide, by decide, by decide⟩, ?_⟩
  exact reconcile_idempotent allOk allOk [exEvent] [] 1
    (by decide) (by decide) (by decide) (by decide) (by decide)
